import Mathlib

/-!
Verification of the spiking-network simulation engine.

The Rust source is shallowly embedded: `f32` values (membrane potentials,
rates, weights, distances) are modelled as `ℚ`; `Instant` timestamps and
`Duration`s are modelled as `ℚ` time values, with `Instant` subtraction
saturating at zero as in Rust.  `Instant::now()` is made an explicit `now`
argument.  The thread-local RNG (`rand::thread_rng`) is made an explicit
stream of uniform draws in `[0,1)`, consumed left to right; `f32::sqrt`
(irrational in general) is passed in as an explicit function parameter.
-/

/-- The named simulation constants of the crate (referenced in the source
as `crate::HARD_REFRACTORY_DURATION` and so on), gathered in a record so
the theorems quantify over them. -/
structure Params where
  hard_refractory_duration : ℚ
  membrane_decay_rate : ℚ
  refractory_decay_rate : ℚ
  action_potential_threshold : ℚ
  refractory_potential : ℚ
  deriving Repr, DecidableEq

/-- `NeuronState` from `src/neuron.rs`.  The `BinaryHeap<Reverse<ActionPotential>>`
of pending deliveries is modelled as a list of `(arrival, target_idx)` pairs. -/
structure NeuronState where
  idx : Nat
  firing : Bool
  membrane_potential : ℚ
  last_update : ℚ
  pending_action_potentials : List (ℚ × Nat)
  deriving Repr, DecidableEq

/-- The membrane-potential decay step of `update_neuron` (`src/neuron.rs`
lines 22-31): linear decay toward zero, clamped so it never crosses zero.
`td` is the elapsed time since the last update. -/
def decayPotential (decayRate recoveryRate td mp : ℚ) : ℚ :=
  if 0 < mp then
    -- linear decay of the membrane potential
    mp - min (td * decayRate) mp
  else
    -- linear decay of the refractory overshoot
    mp + min (td * recoveryRate) (-mp)

/-- `update_neuron` from `src/neuron.rs`.  `now` stands for `Instant::now()`;
`time_delta = now - state.last_update` saturates at zero (Rust `Instant`
subtraction).  During the hard refractory window the state is returned
untouched; otherwise the firing flag is cleared, `last_update` advances,
the potential decays, and an incoming stimulus (if any) is added, firing
and clamping to the refractory potential on reaching the threshold. -/
def updateNeuron (p : Params) (s : NeuronState) (incoming : Option ℚ) (now : ℚ) : NeuronState :=
  let td := max 0 (now - s.last_update)
  if s.firing = true ∧ td < p.hard_refractory_duration then
    -- hard refractory period: return with the state unchanged
    s
  else
    let mp := decayPotential p.membrane_decay_rate p.refractory_decay_rate td s.membrane_potential
    match incoming with
    | none => { s with firing := false, last_update := now, membrane_potential := mp }
    | some inc =>
      if p.action_potential_threshold ≤ mp + inc then
        -- fire an action potential
        { s with firing := true, last_update := now,
                 membrane_potential := p.refractory_potential }
      else
        { s with firing := false, last_update := now, membrane_potential := mp + inc }

/-- Weight resolution for an inbound message (`src/neuron.rs` lines 115-118):
`dendrite_weights.get(&target_idx).copied().unwrap_or(ACTION_POTENTIAL_THRESHOLD)`.
The `HashMap<usize, f32>` is modelled as an association list. -/
def resolveWeight (weights : List (Nat × ℚ)) (threshold : ℚ) (sender : Nat) : ℚ :=
  (weights.lookup sender).getD threshold

/-- Handling of a received message in the actor loop (`src/neuron.rs`
lines 109-120): resolve the sender's weight and run the update rule with
that magnitude as the incoming stimulus. -/
def onMessage (p : Params) (weights : List (Nat × ℚ)) (s : NeuronState) (sender : Nat)
    (now : ℚ) : NeuronState :=
  updateNeuron p s (some (resolveWeight weights p.action_potential_threshold sender)) now

/-- The initial actor state (`src/neuron.rs` lines 91-97): zero potential,
not firing, empty delivery queue, and `last_update` backdated by the hard
refractory duration (`Instant::now() - crate::HARD_REFRACTORY_DURATION`). -/
def initState (idx : Nat) (now dur : ℚ) : NeuronState :=
  { idx := idx
    firing := false
    membrane_potential := 0
    last_update := now - dur
    pending_action_potentials := [] }

/-- Outcome of the connection-sampling loop in `Network::new`
(`src/network.rs` lines 66-92).  `full` is normal exit with `NUM_CONNECTIONS`
targets, `underfull` is the logged shortfall break, `fatal` is the
`panic!("No connections generated ...")`. -/
inductive SampleOutcome where
  | full (targets : List Nat)
  | underfull (targets : List Nat)
  | fatal
  deriving Repr, DecidableEq

/-- The connection-sampling loop of `Network::new` (`src/network.rs` lines
66-92), with the sequence of indices produced by `distr.sample(&mut rng)`
made an explicit list `draws`.  The loop state is `(tries, targets)`; the
`HashSet` of targets is modelled as a duplicate-free list.  Returns `none`
when the finite draw list is exhausted while the loop would keep sampling;
otherwise returns the outcome together with the final `tries` counter. -/
def sampleTargets (selfIdx K R : Nat) : Nat → List Nat → List Nat → Option (SampleOutcome × Nat)
  | tries, targets, draws =>
    if K ≤ targets.length then some (.full targets, tries)
    else if R < tries then
      if targets.length = 0 then some (.fatal, tries)
      else some (.underfull targets, tries)
    else
      match draws with
      | [] => none
      | d :: ds =>
        if d = selfIdx then sampleTargets selfIdx K R (tries + 1) targets ds
        else if d ∈ targets then sampleTargets selfIdx K R (tries + 1) targets ds
        else sampleTargets selfIdx K R tries (targets ++ [d]) ds

/-- The per-neuron sampling weights of `Network::new` (`src/network.rs`
lines 54-63): `0` beyond the maximum connection distance, `1/d` within.
(At `d = 0`, Rust `f32` yields `+inf` while `ℚ` yields `0`; distances of
distinct sampled positions are positive with probability one and every
theorem below that depends on a within-range weight assumes `0 < d`.) -/
def connectionWeights (row : List ℚ) (D : ℚ) : List ℚ :=
  row.map (fun d => if D < d then 0 else 1 / d)

/-- `WeightedIndex::new` from the `rand` crate (called at `src/network.rs`
line 64): errs on an empty weight list, on any negative weight, and when
the total weight is zero; the surrounding code `unwrap`s the result, so
`none` is a construction-time panic. -/
def weightedIndexNew (ws : List ℚ) : Option (List ℚ) :=
  if ws = [] then none
  else if ∃ w ∈ ws, w < 0 then none
  else if ws.sum = 0 then none
  else some ws

/-- The full per-neuron target-generation step of `Network::new`
(`src/network.rs` lines 53-92): build the weighted distribution (panicking
via `unwrap` when every weight is zero) and then run the sampling loop. -/
inductive TargetsResult where
  | ok (targets : List Nat) (tries : Nat)
  | shortfall (targets : List Nat) (tries : Nat)
  | panicNoConnections (tries : Nat)
  | panicAllWeightsZero
  deriving Repr, DecidableEq

/-- Per-neuron target generation: distribution construction followed by the
sampling loop (`src/network.rs` lines 53-92). -/
def buildTargets (selfIdx K R : Nat) (row : List ℚ) (D : ℚ) (draws : List Nat) :
    Option TargetsResult :=
  match weightedIndexNew (connectionWeights row D) with
  | none => some .panicAllWeightsZero
  | some _ =>
    (sampleTargets selfIdx K R 0 [] draws).map (fun out =>
      match out with
      | (.full t, tr) => .ok t tr
      | (.underfull t, tr) => .shortfall t tr
      | (.fatal, tr) => .panicNoConnections tr)

/-- The edge-delay computation of `Network::new` (`src/network.rs` lines
101-104): `Duration::from_millis((distance * 1000.0 / ACTION_POTENTIAL_SPEED) as u64)`.
The `as u64` cast truncates toward zero (saturating at zero for negative
values), which for a nonnegative operand is the floor. -/
def delayMillis (dist speed : ℚ) : Nat :=
  ⌊dist * 1000 / speed⌋.toNat

example : delayMillis 2 1000 = 2 := by norm_num [delayMillis]; rfl
example : delayMillis (1 / 2) 1000 = 0 := by norm_num [delayMillis]
example : sampleTargets 0 1 1 0 [] [0, 1] = some (.full [1], 1) := by decide
example : sampleTargets 0 2 1 0 [] [0, 1, 1, 1] = some (.underfull [1], 2) := by decide
example : sampleTargets 0 2 1 0 [] [0] = none := by decide
example : sampleTargets 0 2 1 0 [] [0, 0, 0] = some (.fatal, 2) := by decide

example : decayPotential 1 1 2 3 = 1 := by norm_num [decayPotential]
example : decayPotential 1 2 5 (-4) = 0 := by norm_num [decayPotential]
example :
    updateNeuron ⟨10, 1, 1, 1, -2⟩ ⟨0, true, -2, 0, []⟩ (some 5) 4 = ⟨0, true, -2, 0, []⟩ := by
  norm_num [updateNeuron, decayPotential]
example :
    updateNeuron ⟨10, 1, 1, 1, -2⟩ ⟨0, false, 0, 0, []⟩ (some 5) 4 = ⟨0, true, -2, 4, []⟩ := by
  norm_num [updateNeuron, decayPotential]

/-- Zero elapsed time decays nothing. -/
theorem decayPotential_zero (dr rr mp : ℚ) : decayPotential dr rr 0 mp = mp := by
  unfold decayPotential
  split_ifs with h
  · rw [zero_mul, min_eq_left h.le, sub_zero]
  · push_neg at h
    rw [zero_mul, min_eq_left (neg_nonneg.mpr h), add_zero]

/-- Decay keeps a nonnegative potential nonnegative. -/
theorem decayPotential_nonneg (dr rr td mp : ℚ) (htd : 0 ≤ td) (hrr : 0 ≤ rr)
    (hmp : 0 ≤ mp) : 0 ≤ decayPotential dr rr td mp := by
  unfold decayPotential
  split_ifs with h
  · have hle := min_le_right (td * dr) mp
    linarith
  · push_neg at h
    have h0 : mp = 0 := le_antisymm h hmp
    subst h0
    have : min (td * rr) (-(0 : ℚ)) = 0 := by
      rw [neg_zero]
      exact min_eq_right (mul_nonneg htd hrr)
    rw [this, add_zero]

/-- C1: while `firing` is set and the elapsed time since the last firing
instant is strictly below the hard refractory duration, `update_neuron`
returns the state untouched for any incoming stimulus or none: no decay,
the stimulus is ignored, `firing` stays true, `last_update` does not
advance, and in particular no new firing happens while the window lasts. -/
theorem c1_refractory_freeze (p : Params) (s : NeuronState) (inc : Option ℚ) (t : ℚ)
    (hf : s.firing = true) (ht : max 0 (t - s.last_update) < p.hard_refractory_duration) :
    updateNeuron p s inc t = s := by
  simp only [updateNeuron]
  rw [if_pos ⟨hf, ht⟩]

/-- Witness for C1 at a concrete refractory state. -/
theorem c1_refractory_freeze_witness :
    (NeuronState.mk 0 true (-2) 0 []).firing = true ∧
    max 0 ((4 : ℚ) - (NeuronState.mk 0 true (-2) 0 []).last_update)
      < (Params.mk 10 1 1 1 (-2)).hard_refractory_duration ∧
    updateNeuron (Params.mk 10 1 1 1 (-2)) (NeuronState.mk 0 true (-2) 0 []) (some 5) 4
      = NeuronState.mk 0 true (-2) 0 [] :=
  ⟨rfl, by norm_num,
    c1_refractory_freeze (Params.mk 10 1 1 1 (-2)) (NeuronState.mk 0 true (-2) 0 []) (some 5) 4
      rfl (by norm_num)⟩

/-- C2: outside the hard refractory window, the decay step of
`update_neuron` (run here with no incoming stimulus) moves the membrane
potential monotonically toward zero and never past it: a positive
potential drops by exactly `min(elapsed * decay_rate, potential)` and
stays nonnegative, a negative potential rises by exactly
`min(elapsed * recovery_rate, -potential)` and stays nonpositive. -/
theorem c2_decay_toward_zero (p : Params) (s : NeuronState) (t : ℚ)
    (hg : ¬(s.firing = true ∧ max 0 (t - s.last_update) < p.hard_refractory_duration))
    (hd : 0 ≤ p.membrane_decay_rate) (hr : 0 ≤ p.refractory_decay_rate) :
    (0 < s.membrane_potential →
      (updateNeuron p s none t).membrane_potential
          = s.membrane_potential
            - min (max 0 (t - s.last_update) * p.membrane_decay_rate) s.membrane_potential ∧
      0 ≤ (updateNeuron p s none t).membrane_potential ∧
      (updateNeuron p s none t).membrane_potential ≤ s.membrane_potential) ∧
    (s.membrane_potential < 0 →
      (updateNeuron p s none t).membrane_potential
          = s.membrane_potential
            + min (max 0 (t - s.last_update) * p.refractory_decay_rate) (-s.membrane_potential) ∧
      s.membrane_potential ≤ (updateNeuron p s none t).membrane_potential ∧
      (updateNeuron p s none t).membrane_potential ≤ 0) := by
  have htd : 0 ≤ max 0 (t - s.last_update) := le_max_left 0 _
  have hkey : (updateNeuron p s none t).membrane_potential
      = decayPotential p.membrane_decay_rate p.refractory_decay_rate
          (max 0 (t - s.last_update)) s.membrane_potential := by
    simp only [updateNeuron]
    rw [if_neg hg]
  rw [hkey]
  unfold decayPotential
  constructor
  · intro hpos
    rw [if_pos hpos]
    refine ⟨rfl, ?_, ?_⟩
    · have hle := min_le_right (max 0 (t - s.last_update) * p.membrane_decay_rate)
        s.membrane_potential
      linarith
    · have hge : 0 ≤ min (max 0 (t - s.last_update) * p.membrane_decay_rate)
          s.membrane_potential := le_min (mul_nonneg htd hd) hpos.le
      linarith
  · intro hneg
    rw [if_neg (by linarith)]
    refine ⟨rfl, ?_, ?_⟩
    · have hge : 0 ≤ min (max 0 (t - s.last_update) * p.refractory_decay_rate)
          (-s.membrane_potential) := le_min (mul_nonneg htd hr) (by linarith)
      linarith
    · have hle := min_le_right (max 0 (t - s.last_update) * p.refractory_decay_rate)
        (-s.membrane_potential)
      linarith

/-- Witness for C2 on a concrete positive and a concrete negative state. -/
theorem c2_decay_toward_zero_witness :
    (¬((NeuronState.mk 0 false 3 0 []).firing = true ∧
        max 0 ((2 : ℚ) - 0) < (10 : ℚ))) ∧
    ((0 : ℚ) < 3 →
      (updateNeuron (Params.mk 10 1 1 100 (-2)) (NeuronState.mk 0 false 3 0 []) none
            2).membrane_potential = 3 - min (max 0 ((2 : ℚ) - 0) * 1) 3 ∧
      0 ≤ (updateNeuron (Params.mk 10 1 1 100 (-2)) (NeuronState.mk 0 false 3 0 []) none
            2).membrane_potential ∧
      (updateNeuron (Params.mk 10 1 1 100 (-2)) (NeuronState.mk 0 false 3 0 []) none
            2).membrane_potential ≤ 3) := by
  have h := c2_decay_toward_zero (Params.mk 10 1 1 100 (-2)) (NeuronState.mk 0 false 3 0 [])
    2 (by simp) (by norm_num) (by norm_num)
  exact ⟨by simp, h.1⟩

/-- C8: running the update rule a second time at the same instant (zero
elapsed time) with no incoming stimulus leaves the membrane potential
unchanged. -/
theorem c8_idempotent_at_zero_elapsed (p : Params) (s : NeuronState) (t : ℚ) :
    (updateNeuron p (updateNeuron p s none t) none t).membrane_potential
      = (updateNeuron p s none t).membrane_potential := by
  by_cases hg : s.firing = true ∧ max 0 (t - s.last_update) < p.hard_refractory_duration
  · have h1 : updateNeuron p s none t = s := by
      simp only [updateNeuron]
      rw [if_pos hg]
    rw [h1, h1]
  · have h1 : updateNeuron p s none t
        = { s with firing := false, last_update := t,
                   membrane_potential := decayPotential p.membrane_decay_rate
                     p.refractory_decay_rate (max 0 (t - s.last_update))
                     s.membrane_potential } := by
      simp only [updateNeuron]
      rw [if_neg hg]
    rw [h1]
    simp [updateNeuron, decayPotential_zero]

/-- C10: every actor starts with zero membrane potential, `firing = false`,
an empty pending-delivery queue, and `last_update` backdated by exactly the
hard refractory duration; consequently the very first inbound message is
processed rather than discarded by the refractory check (the update always
advances `last_update` to the message time). -/
theorem c10_initial_state (idx : Nat) (now : ℚ) (p : Params) (inc : Option ℚ) (t : ℚ) :
    (initState idx now p.hard_refractory_duration).membrane_potential = 0 ∧
    (initState idx now p.hard_refractory_duration).firing = false ∧
    (initState idx now p.hard_refractory_duration).pending_action_potentials = [] ∧
    (initState idx now p.hard_refractory_duration).last_update
      = now - p.hard_refractory_duration ∧
    (updateNeuron p (initState idx now p.hard_refractory_duration) inc t).last_update = t := by
  refine ⟨rfl, rfl, rfl, rfl, ?_⟩
  simp only [updateNeuron, initState]
  rw [if_neg (by simp)]
  cases inc with
  | none => rfl
  | some x =>
    dsimp only
    split_ifs <;> rfl

/-- C7: an inbound message's stimulus magnitude is the per-connection
weight resolved for the sender's index, falling back to the bare
action-potential threshold when the index has no weight entry; hence a
message from an index with no entry (the force-fire sentinel) carries a
threshold-strength stimulus and makes a non-refractory neuron (firing flag
clear, no remaining refractory undershoot) fire. -/
theorem c7_sentinel_forces_fire (p : Params) (w : List (Nat × ℚ)) (s : NeuronState)
    (sender : Nat) (t : ℚ)
    (hnone : w.lookup sender = none) (hf : s.firing = false)
    (hmp : 0 ≤ s.membrane_potential) (hr : 0 ≤ p.refractory_decay_rate) :
    resolveWeight w p.action_potential_threshold sender = p.action_potential_threshold ∧
    (∀ sender' x, w.lookup sender' = some x →
      onMessage p w s sender' t = updateNeuron p s (some x) t) ∧
    (onMessage p w s sender t).firing = true ∧
    (onMessage p w s sender t).membrane_potential = p.refractory_potential := by
  have htd : 0 ≤ max 0 (t - s.last_update) := le_max_left 0 _
  have hdp := decayPotential_nonneg p.membrane_decay_rate p.refractory_decay_rate
    (max 0 (t - s.last_update)) s.membrane_potential htd hr hmp
  have key : onMessage p w s sender t
      = { s with firing := true, last_update := t,
                 membrane_potential := p.refractory_potential } := by
    simp only [onMessage, resolveWeight, hnone, Option.getD_none, updateNeuron]
    rw [if_neg (by simp [hf])]
    rw [if_pos (by linarith)]
  refine ⟨by simp [resolveWeight, hnone], ?_, by rw [key], by rw [key]⟩
  intro s' x hx
  simp [onMessage, resolveWeight, hx]

/-- Witness for C7: a resting neuron stimulated by an unknown sender index. -/
theorem c7_sentinel_forces_fire_witness :
    ([((3 : Nat), (1 : ℚ) / 2)].lookup 99 = none) ∧
    (NeuronState.mk 0 false 0 0 []).firing = false ∧
    ((0 : ℚ) ≤ (NeuronState.mk 0 false 0 0 []).membrane_potential) ∧
    ((0 : ℚ) ≤ (Params.mk 10 1 1 1 (-2)).refractory_decay_rate) ∧
    resolveWeight [((3 : Nat), (1 : ℚ) / 2)] (Params.mk 10 1 1 1 (-2)).action_potential_threshold
        99 = (Params.mk 10 1 1 1 (-2)).action_potential_threshold ∧
    (onMessage (Params.mk 10 1 1 1 (-2)) [((3 : Nat), (1 : ℚ) / 2)]
        (NeuronState.mk 0 false 0 0 []) 99 4).firing = true ∧
    (onMessage (Params.mk 10 1 1 1 (-2)) [((3 : Nat), (1 : ℚ) / 2)]
        (NeuronState.mk 0 false 0 0 []) 99 4).membrane_potential
      = (Params.mk 10 1 1 1 (-2)).refractory_potential := by
  have h := c7_sentinel_forces_fire (Params.mk 10 1 1 1 (-2)) [((3 : Nat), (1 : ℚ) / 2)]
    (NeuronState.mk 0 false 0 0 []) 99 4 (by rfl) rfl (by norm_num) (by norm_num)
  exact ⟨by rfl, rfl, by norm_num, by norm_num, h.1, h.2.2.1, h.2.2.2⟩

/-- Invariant of the connection-sampling loop: starting from a
duplicate-free, self-free target set of size at most `K` and a `tries`
counter at most `R + 1`, any terminating run ends in one of exactly three
shapes: a full set of exactly `K` targets, a nonempty short set with the
cumulative unproductive-draw counter at exactly `R + 1`, or the fatal
empty outcome, again at counter `R + 1`. -/
theorem sampleTargets_spec (selfIdx K R : Nat) :
    ∀ (draws : List Nat) (tries : Nat) (targets : List Nat) (out : SampleOutcome) (tr : Nat),
      targets.Nodup → selfIdx ∉ targets → targets.length ≤ K → tries ≤ R + 1 →
      sampleTargets selfIdx K R tries targets draws = some (out, tr) →
      ((∃ ts, out = SampleOutcome.full ts ∧ ts.length = K ∧ ts.Nodup ∧ selfIdx ∉ ts) ∨
       (∃ ts, out = SampleOutcome.underfull ts ∧ ts ≠ [] ∧ ts.length < K ∧ ts.Nodup ∧
          selfIdx ∉ ts ∧ tr = R + 1) ∨
       (out = SampleOutcome.fatal ∧ tr = R + 1)) := by
  intro draws
  induction draws with
  | nil =>
    intro tries targets out tr hnd hself hlen htr heq
    rw [sampleTargets] at heq
    split_ifs at heq with h1 h2 h3
    · simp only [Option.some.injEq, Prod.mk.injEq] at heq
      obtain ⟨hout, htr'⟩ := heq
      exact Or.inl ⟨targets, hout.symm, le_antisymm hlen h1, hnd, hself⟩
    · simp only [Option.some.injEq, Prod.mk.injEq] at heq
      obtain ⟨hout, htr'⟩ := heq
      exact Or.inr (Or.inr ⟨hout.symm, by omega⟩)
    · simp only [Option.some.injEq, Prod.mk.injEq] at heq
      obtain ⟨hout, htr'⟩ := heq
      refine Or.inr (Or.inl ⟨targets, hout.symm, ?_, by omega, hnd, hself, by omega⟩)
      intro hnil
      exact h3 (by simp [hnil])
  | cons d ds ih =>
    intro tries targets out tr hnd hself hlen htr heq
    rw [sampleTargets] at heq
    split_ifs at heq with h1 h2 h3 hd1 hd2
    · simp only [Option.some.injEq, Prod.mk.injEq] at heq
      obtain ⟨hout, htr'⟩ := heq
      exact Or.inl ⟨targets, hout.symm, le_antisymm hlen h1, hnd, hself⟩
    · simp only [Option.some.injEq, Prod.mk.injEq] at heq
      obtain ⟨hout, htr'⟩ := heq
      exact Or.inr (Or.inr ⟨hout.symm, by omega⟩)
    · simp only [Option.some.injEq, Prod.mk.injEq] at heq
      obtain ⟨hout, htr'⟩ := heq
      refine Or.inr (Or.inl ⟨targets, hout.symm, ?_, by omega, hnd, hself, by omega⟩)
      intro hnil
      exact h3 (by simp [hnil])
    · exact ih (tries + 1) targets out tr hnd hself hlen (by omega) heq
    · exact ih (tries + 1) targets out tr hnd hself hlen (by omega) heq
    · refine ih tries (targets ++ [d]) out tr ?_ ?_ ?_ (by omega) heq
      · refine hnd.append (List.nodup_singleton d) ?_
        intro a ha hb
        simp only [List.mem_singleton] at hb
        subst hb
        exact hd2 ha
      · simp only [List.mem_append, List.mem_singleton]
        rintro (h | h)
        · exact hself h
        · exact hd1 h.symm
      · simp only [List.length_append, List.length_singleton]
        omega

/-- C3 counterexample: the loop does not stop after `R` *consecutive*
unproductive draws.  First run (`selfIdx = 0`, `K = 1`, `R = 1`): after the
self-loop draw, `R = 1` consecutive unproductive draws have occurred with
zero targets collected, so the claim demands a fatal stop, but the loop
continues and exits with a full target set.  Second run (`K = 3`, `R = 2`,
draws self, 1, self, 2, self): no two consecutive draws are ever
unproductive, so the claim demands the loop keep sampling, yet it stops
with a partial set because the *cumulative* counter reaches 3. -/
theorem c3_counterexample :
    sampleTargets 0 1 1 0 [] [0, 1] = some (.full [1], 1) ∧
    sampleTargets 0 3 2 0 [] [0, 1, 0, 2, 0] = some (.underfull [1, 2], 3) := by
  constructor
  · decide
  · decide

/-- C3 amended: the connection-sampling loop stops exactly when `K`
distinct non-self targets have been collected, or when the *cumulative*
count of unproductive draws (self-loops or already-collected targets,
never reset by productive draws) exceeds the retry budget `R`, i.e. on
reaching `R + 1`; at budget exhaustion it proceeds with the nonempty
partial set (logged shortfall) and fails fatally only when the set is
empty.  The returned counter `tr` is the final cumulative count of
unproductive draws. -/
theorem c3_sampling_loop_exit (selfIdx K R : Nat) (draws : List Nat) (out : SampleOutcome)
    (tr : Nat) (h : sampleTargets selfIdx K R 0 [] draws = some (out, tr)) :
    (∃ ts, out = SampleOutcome.full ts ∧ ts.length = K) ∨
    (∃ ts, out = SampleOutcome.underfull ts ∧ ts ≠ [] ∧ ts.length < K ∧ tr = R + 1) ∨
    (out = SampleOutcome.fatal ∧ tr = R + 1) := by
  have hs := sampleTargets_spec selfIdx K R draws 0 [] out tr List.nodup_nil
    (List.not_mem_nil selfIdx) (by simp) (by omega) h
  rcases hs with ⟨ts, hout, hlen, _, _⟩ | ⟨ts, hout, hne, hlt, _, _, htr⟩ | ⟨hout, htr⟩
  · exact Or.inl ⟨ts, hout, hlen⟩
  · exact Or.inr (Or.inl ⟨ts, hout, hne, hlt, htr⟩)
  · exact Or.inr (Or.inr ⟨hout, htr⟩)

/-- Witness for the amended C3 on a run that stops with a shortfall. -/
theorem c3_sampling_loop_exit_witness :
    sampleTargets 0 3 2 0 [] [0, 1, 0, 2, 0] = some (.underfull [1, 2], 3) ∧
    ((∃ ts, SampleOutcome.underfull [1, 2] = SampleOutcome.full ts ∧ ts.length = 3) ∨
     (∃ ts, SampleOutcome.underfull [1, 2] = SampleOutcome.underfull ts ∧ ts ≠ [] ∧
        ts.length < 3 ∧ 3 = 2 + 1) ∨
     (SampleOutcome.underfull [1, 2] = SampleOutcome.fatal ∧ 3 = 2 + 1)) :=
  ⟨by decide, c3_sampling_loop_exit 0 3 2 [0, 1, 0, 2, 0] (.underfull [1, 2]) 3 (by decide)⟩

/-- C5: any non-fatal outcome of the sampling loop (run from an empty
target set, with out-degree `K ≥ 1`) yields a target set with at most `K`
elements, no duplicates, no self-loop, and at least one element; the empty
set is exactly the fatal construction panic. -/
theorem c5_target_set_invariants (selfIdx K R : Nat) (draws : List Nat) (out : SampleOutcome)
    (tr : Nat) (hK : 1 ≤ K) (h : sampleTargets selfIdx K R 0 [] draws = some (out, tr))
    (hout : out ≠ SampleOutcome.fatal) :
    ∃ ts, (out = SampleOutcome.full ts ∨ out = SampleOutcome.underfull ts) ∧
      ts.length ≤ K ∧ 1 ≤ ts.length ∧ ts.Nodup ∧ selfIdx ∉ ts := by
  have hs := sampleTargets_spec selfIdx K R draws 0 [] out tr List.nodup_nil
    (List.not_mem_nil selfIdx) (by simp) (by omega) h
  rcases hs with ⟨ts, hfull, hlen, hnd, hself⟩ | ⟨ts, hunder, hne, hlt, hnd, hself, _⟩ |
    ⟨hfatal, _⟩
  · exact ⟨ts, Or.inl hfull, by omega, by omega, hnd, hself⟩
  · refine ⟨ts, Or.inr hunder, by omega, ?_, hnd, hself⟩
    have : ts.length ≠ 0 := fun h0 => hne (List.length_eq_zero.mp h0)
    omega
  · exact absurd hfatal hout

/-- Witness for C5 on a concrete full run. -/
theorem c5_target_set_invariants_witness :
    (1 ≤ 2) ∧
    sampleTargets 0 2 3 0 [] [1, 2] = some (.full [1, 2], 0) ∧
    (∃ ts, (SampleOutcome.full [1, 2] = SampleOutcome.full ts ∨
        SampleOutcome.full [1, 2] = SampleOutcome.underfull ts) ∧
      ts.length ≤ 2 ∧ 1 ≤ ts.length ∧ ts.Nodup ∧ 0 ∉ ts) :=
  ⟨by decide, by decide,
    c5_target_set_invariants 0 2 3 [1, 2] (.full [1, 2]) 0 (by decide) (by decide) (by decide)⟩

/-- C4 counterexample: at distance `1/2` and conduction speed `1000`, the
claimed delay `distance * (1000 / speed)` is `1/2` of a time unit, but the
code's `as u64` cast truncates to whole milliseconds and yields `0` — so
the delay is neither equal to the claimed product nor strictly positive. -/
theorem c4_counterexample :
    delayMillis (1 / 2) 1000 = 0 ∧
    ¬(0 < delayMillis (1 / 2) 1000) ∧
    ((delayMillis (1 / 2) 1000 : ℚ) ≠ (1 / 2) * (1000 / 1000)) := by
  refine ⟨?_, ?_, ?_⟩ <;> norm_num [delayMillis]

/-- C4 amended: a constructed edge's delay is
`⌊distance * 1000 / conduction_speed⌋` whole milliseconds — the exact
product truncated to an integer, so `0 ≤ delay` (it can be zero when the
product is below one), and for a fixed positive conduction speed the delay
is monotonically nondecreasing in the spatial distance. -/
theorem c4_delay_truncated_monotone (dist dist2 speed : ℚ) (h0 : 0 ≤ dist) (hs : 0 < speed)
    (h12 : dist ≤ dist2) :
    (delayMillis dist speed : ℚ) ≤ dist * 1000 / speed ∧
    dist * 1000 / speed < delayMillis dist speed + 1 ∧
    delayMillis dist speed ≤ delayMillis dist2 speed := by
  have hq : 0 ≤ dist * 1000 / speed := by positivity
  have hfl : (0 : ℤ) ≤ ⌊dist * 1000 / speed⌋ := Int.floor_nonneg.mpr hq
  have hcast : ((delayMillis dist speed : ℕ) : ℚ) = ((⌊dist * 1000 / speed⌋ : ℤ) : ℚ) := by
    unfold delayMillis
    exact_mod_cast congrArg (fun z => ((z : ℤ) : ℚ)) (Int.toNat_of_nonneg hfl)
  refine ⟨?_, ?_, ?_⟩
  · rw [hcast]
    exact Int.floor_le (dist * 1000 / speed)
  · rw [hcast]
    exact Int.lt_floor_add_one (dist * 1000 / speed)
  · unfold delayMillis
    refine Int.toNat_le_toNat (Int.floor_mono ?_)
    rw [div_le_div_iff_of_pos_right hs]
    linarith

/-- Witness for the amended C4 at distance 2 ≤ 3 and speed 1. -/
theorem c4_delay_truncated_monotone_witness :
    (0 : ℚ) ≤ 2 ∧ (0 : ℚ) < 1 ∧ (2 : ℚ) ≤ 3 ∧
    ((delayMillis 2 1 : ℚ) ≤ (2 : ℚ) * 1000 / 1 ∧
     (2 : ℚ) * 1000 / 1 < (delayMillis 2 1 : ℚ) + 1 ∧
     delayMillis 2 1 ≤ delayMillis 3 1) :=
  ⟨by norm_num, by norm_num, by norm_num,
    c4_delay_truncated_monotone 2 3 1 (by norm_num) (by norm_num) (by norm_num)⟩

/-- C6: when every entry of a neuron's distance row exceeds the maximum
connection distance (in particular when `max_connection_distance` is below
the neuron's nearest-neighbor distance), every sampling weight is zero,
`WeightedIndex::new(..).unwrap()` panics, and the per-neuron construction
step fails fatally for any draw sequence — before a single target is
drawn. -/
theorem c6_no_neighbor_fatal (selfIdx K R : Nat) (row : List ℚ) (D : ℚ)
    (h : ∀ d ∈ row, D < d) :
    ∀ draws, buildTargets selfIdx K R row D draws = some TargetsResult.panicAllWeightsZero := by
  intro draws
  have hall : ∀ w ∈ connectionWeights row D, w = 0 := by
    intro w hw
    simp only [connectionWeights, List.mem_map] at hw
    obtain ⟨d, hd, rfl⟩ := hw
    rw [if_pos (h d hd)]
  have hWIN : weightedIndexNew (connectionWeights row D) = none := by
    unfold weightedIndexNew
    by_cases hnil : connectionWeights row D = []
    · rw [if_pos hnil]
    · rw [if_neg hnil, if_neg ?_, if_pos (List.sum_eq_zero hall)]
      rintro ⟨w, hw, hlt⟩
      rw [hall w hw] at hlt
      exact lt_irrefl 0 hlt
  simp [buildTargets, hWIN]

/-- Witness for C6: a 2-entry distance row entirely beyond range `D = 2`. -/
theorem c6_no_neighbor_fatal_witness :
    (∀ d ∈ [(3 : ℚ), 5], (2 : ℚ) < d) ∧
    buildTargets 0 2 1 [(3 : ℚ), 5] 2 [0, 1] = some TargetsResult.panicAllWeightsZero :=
  ⟨by norm_num, c6_no_neighbor_fatal 0 2 1 [(3 : ℚ), 5] 2 (by norm_num) [0, 1]⟩

